import Mathlib

/-!
Verification development for the PySimpleGraph core
(`src/simple_graph_sqlite/database.py`).

The embedding models:
* Python scalar values appearing as node identifiers, document values and
  SQLite row values (`PyVal`);
* JSON documents as ordered association lists with Python-dict update
  semantics (`Doc`);
* the two-relation database state (`DBState`) with the node/edge schema the
  specification describes (identifier primary key + document column; edge
  source/target with foreign keys into nodes);
* the functions of `database.py` as pure state transformers in `Except`,
  with the `atomic` transaction wrapper made explicit, and the traversal
  loop of `traverse` over an injected sequence of rows.
-/

set_option maxHeartbeats 1000000

namespace PySimpleGraph

/-- Python values relevant to the embedding: strings, integers and `None`.
Node identifiers are `Union[str, int]`; SQLite row values and document
values in the claims are drawn from these.  Python `==` on these values
coincides with structural equality (`"3" == 3` is `False` in Python). -/
inductive PyVal where
  | str : String → PyVal
  | int : Int → PyVal
  | pynone : PyVal
deriving DecidableEq, Repr

/-- A JSON document / Python dict: an ordered association list from string
keys to values.  Python dicts preserve insertion order; `json.dumps` and
`json.loads` preserve that order, so list equality models equality of the
serialized documents. -/
abbrev Doc := List (String × PyVal)

namespace Doc

/-- Dictionary lookup `d[k]` / `d.get(k)`: the value at the first entry with
key `k` (a Python dict has at most one entry per key). -/
def get : Doc → String → Option PyVal
  | [], _ => none
  | (k, v) :: rest, key => if k = key then some v else get rest key

/-- Python `d[k] = v`: if the key is present, the entry keeps its position
and its value is replaced; otherwise the pair is appended at the end. -/
def set (d : Doc) (k : String) (v : PyVal) : Doc :=
  if d.any (fun p => p.1 = k) then
    d.map (fun p => if p.1 = k then (k, v) else p)
  else
    d ++ [(k, v)]

/-- Python `{**c, **d}`: start from `c` and apply every assignment of `d`
in order.  Keys of `d` win on conflict; keys only in `c` are retained,
insertion order of `c` comes first. -/
def merge (c d : Doc) : Doc :=
  d.foldl (fun acc p => set acc p.1 p.2) c

end Doc

/-- Database errors surfaced by the storage engine. -/
inductive DBErr where
  | notNullViolation : DBErr
  | uniqueViolation : DBErr
  | fkViolation : DBErr
deriving DecidableEq, Repr

/-- The two-relation database state: the node relation (identifier primary
key + document column) and the edge relation (source id, target id with
foreign keys into the node relation, properties document). -/
structure DBState where
  nodes : List (PyVal × Doc)
  edges : List (PyVal × PyVal × Doc)
deriving DecidableEq, Repr

/-- Modelled from the spec: `schema.sql` and `insert-node.sql` are not under
src/.  The node relation keys each row by the `id` field of the stored
document (identifier primary key + document column); inserting a document
whose `id` field is missing or null violates NOT NULL, and inserting a
duplicate identifier violates the primary-key uniqueness constraint. -/
def insertNodeRow (st : DBState) (body : Doc) : Except DBErr DBState :=
  match Doc.get body "id" with
  | none => .error .notNullViolation
  | some i =>
    if i = PyVal.pynone then .error .notNullViolation
    else if st.nodes.any (fun r => r.1 = i) then .error .uniqueViolation
    else .ok { st with nodes := st.nodes ++ [(i, body)] }

/-- Modelled from the spec: `update-node.sql` is not under src/.  It rewrites
the document column of every node row whose identifier matches. -/
def updateNodeRow (st : DBState) (body : Doc) (i : PyVal) : DBState :=
  { st with nodes := st.nodes.map (fun r => if r.1 = i then (i, body) else r) }

/-- Modelled from the spec: `insert-edge.sql` is not under src/.  Edge rows
carry source id, target id and a properties document; foreign-key
enforcement (enabled by the transaction wrapper) rejects an edge whose
source or target does not exist in the node relation. -/
def insertEdgeRow (st : DBState) (s t : PyVal) (props : Doc) : Except DBErr DBState :=
  if st.nodes.any (fun r => r.1 = s) then
    if st.nodes.any (fun r => r.1 = t) then
      .ok { st with edges := st.edges ++ [(s, t, props)] }
    else .error .fkViolation
  else .error .fkViolation

/-- Modelled from the spec: `delete-edge.sql` is not under src/.  It deletes
every edge whose source matches the first parameter or whose target matches
the second parameter. -/
def deleteEdgeRows (st : DBState) (s t : PyVal) : DBState :=
  { st with edges := st.edges.filter (fun e => ¬(e.1 = s ∨ e.2.1 = t)) }

/-- Modelled from the spec: `delete-node.sql` is not under src/.  It deletes
the node rows with the given identifier; with foreign keys enabled the
delete is rejected while an edge still references the identifier. -/
def deleteNodeRow (st : DBState) (i : PyVal) : Except DBErr DBState :=
  if st.edges.any (fun e => e.1 = i ∨ e.2.1 = i) then .error .fkViolation
  else .ok { st with nodes := st.nodes.filter (fun r => ¬ r.1 = i) }

/-- Embedding of `_set_id` (database.py lines 138-158): if an identifier is
provided, set the `id` field of the data dictionary to it; otherwise return
the data unchanged. -/
def _set_id (identifier : Option PyVal) (data : Doc) : Doc :=
  match identifier with
  | none => data
  | some i => Doc.set data "id" i

/-- Embedding of `_insert_node` (database.py lines 161-178): execute
`insert-node.sql` with the JSON dump of `_set_id(identifier, data)`. -/
def _insert_node (identifier : Option PyVal) (data : Doc) (st : DBState) :
    Except DBErr DBState :=
  insertNodeRow st (_set_id identifier data)

/-- Embedding of `add_node` (database.py lines 181-203): the returned unit of
work inserts one node. -/
def add_node (data : Doc) (identifier : Option PyVal) (st : DBState) :
    Except DBErr DBState :=
  _insert_node identifier data st

/-- Embedding of `add_nodes` (database.py lines 206-231): `executemany` over
`zip(ids, nodes)` runs the insert row by row on the same cursor and stops at
the first error, leaving the earlier statements uncommitted inside the
surrounding transaction. -/
def add_nodes (nodes : List Doc) (ids : List (Option PyVal)) (st : DBState) :
    Except DBErr DBState :=
  (List.zip ids nodes).foldlM (fun acc p => _insert_node p.1 p.2 acc) st

/-- Embedding of the unit of work of `find_node` (database.py lines 537-560):
a point lookup by identifier; `fetchone` returns the first matching row, and
the function returns the empty dict when there is no row. -/
def find_node (identifier : PyVal) (st : DBState) : Doc :=
  match st.nodes.find? (fun r => r.1 = identifier) with
  | none => []
  | some r => r.2

/-- Embedding of `_upsert_node` (database.py lines 234-261): look up the
current document; if it is falsy (the empty dict) insert, else rewrite the
row with `{**current_data, **data}` after forcing the `id` field. -/
def _upsert_node (identifier : PyVal) (data : Doc) (st : DBState) :
    Except DBErr DBState :=
  let current_data := find_node identifier st
  if current_data.isEmpty then
    _insert_node (some identifier) data st
  else
    let updated_data := Doc.merge current_data data
    .ok (updateNodeRow st (_set_id (some identifier) updated_data) identifier)

/-- Embedding of `upsert_node` (database.py lines 263-285): the returned unit
of work upserts one node. -/
def upsert_node (identifier : PyVal) (data : Doc) (st : DBState) :
    Except DBErr DBState :=
  _upsert_node identifier data st

/-- Embedding of `upsert_nodes` (database.py lines 288-311): the unit of work
runs `_upsert_node` once per element of `zip(ids, nodes)` on one cursor. -/
def upsert_nodes (nodes : List Doc) (ids : List PyVal) (st : DBState) :
    Except DBErr DBState :=
  (List.zip ids nodes).foldlM (fun acc p => _upsert_node p.1 p.2 acc) st

/-- Embedding of `connect_nodes` (database.py lines 314-347): the unit of
work inserts one edge row. -/
def connect_nodes (source_id target_id : PyVal) (properties : Doc)
    (st : DBState) : Except DBErr DBState :=
  insertEdgeRow st source_id target_id properties

/-- Embedding of `connect_many_nodes` (database.py lines 350-379):
`executemany` over `zip(sources, targets, properties)` inserts the edges row
by row and stops at the first error. -/
def connect_many_nodes (sources targets : List PyVal) (properties : List Doc)
    (st : DBState) : Except DBErr DBState :=
  (List.zip sources (List.zip targets properties)).foldlM
    (fun acc p => insertEdgeRow acc p.1 p.2.1 p.2.2) st

/-- Embedding of `remove_node` (database.py lines 382-407): first execute
`delete-edge.sql` with `(identifier, identifier)`, then `delete-node.sql`
with `(identifier,)`. -/
def remove_node (identifier : PyVal) (st : DBState) : Except DBErr DBState :=
  deleteNodeRow (deleteEdgeRows st identifier identifier) identifier

/-- Embedding of `remove_nodes` (database.py lines 410-442): `executemany`
deletes the incident edges of every listed identifier, then `executemany`
deletes the node rows. -/
def remove_nodes (identifiers : List PyVal) (st : DBState) :
    Except DBErr DBState :=
  (identifiers.foldl (fun acc i => deleteEdgeRows acc i i) st) |>
    fun st1 => identifiers.foldlM (fun acc i => deleteNodeRow acc i) st1

/-- Observable events of the connection lifecycle inside `atomic`. -/
inductive Ev where
  | openConn : Ev
  | enableFK : Ev
  | runUnit : Ev
  | commit : Ev
  | closeConn : Ev
deriving DecidableEq, Repr

/-- Embedding of `atomic` (database.py lines 86-112).  `connect` models the
outcome of `sqlite3.connect` (when it raises, `connection` stays `None` and
the `finally` block closes nothing).  On a successful connect, the cursor
executes `PRAGMA foreign_keys = TRUE`, the unit of work runs against the
uncommitted state, and `connection.commit()` runs only on its normal return;
the `finally` block closes the connection on both paths.  The result is the
unit's value (or the propagated exception), the state as committed after the
call, and the ordered event trace. -/
def atomic {α : Type} (connect : Except DBErr Unit) (db : DBState)
    (cursor_exec_fn : DBState → Except DBErr (α × DBState)) :
    Except DBErr α × DBState × List Ev :=
  match connect with
  | .error e => (.error e, db, [])
  | .ok _ =>
    match cursor_exec_fn db with
    | .ok (results, db2) =>
      (.ok results, db2, [.openConn, .enableFK, .runUnit, .commit, .closeConn])
    | .error e =>
      (.error e, db, [.openConn, .enableFK, .runUnit, .closeConn])

/-- Lift a write-only unit of work (returning no value) to the shape
`atomic` consumes. -/
def asUnit (g : DBState → Except DBErr DBState) :
    DBState → Except DBErr (Unit × DBState) :=
  fun st => (g st).map (fun st2 => ((), st2))

/-- Embedding of Python `json.dumps` restricted to the identifier values a
traversal target can be (`None`, `str`, `int`); escaping inside strings is
not modelled because no claim depends on it. -/
def pyJsonDumps : Option PyVal → String
  | none => "null"
  | some (PyVal.str s) => "\"" ++ s ++ "\""
  | some (PyVal.int n) => toString n
  | some PyVal.pynone => "null"

/-- Loop of `_traverse` in identifiers-only mode (database.py lines 696-712,
`with_bodies` false).  Rows are the tuples the neighbor query yields, in
order; an empty row is falsy and skipped; otherwise `identifier = row[0]` is
appended only if not already in the path, and the loop breaks when the
appended identifier equals the serialized target string. -/
def traverseIdsLoop (target : String) :
    List (List PyVal) → List PyVal → List PyVal
  | [], path => path
  | row :: rest, path =>
    match row with
    | [] => traverseIdsLoop target rest path
    | identifier :: _ =>
      if identifier ∈ path then traverseIdsLoop target rest path
      else if identifier = PyVal.str target then path ++ [identifier]
      else traverseIdsLoop target rest (path ++ [identifier])

/-- Identifiers-only mode of `traverse` (database.py lines 666-714) over an
injected row sequence: the path starts empty and the target is
`json.dumps(tgt)`. -/
def traverse_ids (rows : List (List PyVal)) (tgt : Option PyVal) : List PyVal :=
  traverseIdsLoop (pyJsonDumps tgt) rows []

/-- Loop of `_traverse` in body-inclusion mode (database.py lines 701-705,
`with_bodies` true).  Each row `(identifier, obj, body)` is appended
unconditionally (a 3-tuple is always truthy), and the loop breaks when the
identifier equals the serialized target and the marker `obj` is the node
marker `"()"`. -/
def traverseBodiesLoop (target : String) :
    List (PyVal × PyVal × PyVal) → List (PyVal × PyVal × PyVal) →
    List (PyVal × PyVal × PyVal)
  | [], path => path
  | row :: rest, path =>
    if row.1 = PyVal.str target ∧ row.2.1 = PyVal.str "()" then path ++ [row]
    else traverseBodiesLoop target rest (path ++ [row])

/-- Body-inclusion mode of `traverse` (database.py lines 666-714) over an
injected row sequence. -/
def traverse_with_bodies (rows : List (PyVal × PyVal × PyVal))
    (tgt : Option PyVal) : List (PyVal × PyVal × PyVal) :=
  traverseBodiesLoop (pyJsonDumps tgt) rows []

/-- Truthiness of an optional Python string (`if key:`): `None` and the
empty string are falsy. -/
def pyTruthyStr : Option String → Bool
  | none => false
  | some s => s ≠ ""

/-- Modelled from the spec: `search-where.template` is not under src/.  A
clause fragment is the joiner followed by either an identifier lookup, a
tree-mode membership test on the document tree (optionally scoped to one
key), or a flat extraction of the key compared by the predicate operator.
In every mode the caller-supplied value position is the fixed bound-parameter
placeholder `?`; only the joiner, key and predicate appear as text. -/
def clause_template_render (and_or : String) (key : Option String)
    (predicate : String) (tree : Bool) (key_value : Bool)
    (id_lookup : Bool) : String :=
  (if and_or = "" then "" else and_or ++ " ") ++
  (if id_lookup then "id = ?"
   else if tree then
     match key with
     | some k => "(json_tree.key = " ++ k ++ " AND json_tree.value " ++ predicate ++ " ?)"
     | none => "json_tree.value " ++ predicate ++ " ?"
   else if key_value then
     "json_extract(body, $." ++ key.getD "" ++ ") " ++ predicate ++ " ?"
   else "")

/-- Modelled from the spec: `search-node.template` is not under src/.  The
search query selects the result column from the node relation, joined with
the document-tree expansion in tree mode (scoped to the key when one is
given), with the clause fragments appended after WHERE; it is syntactically
valid for zero, one or many clauses. -/
def search_template_render (result_column : String) (tree : Bool)
    (key : Option String) (search_clauses : List String) : String :=
  "SELECT " ++ result_column ++ " FROM nodes" ++
  (if tree then
     match key with
     | some k => ", json_tree(body, $." ++ k ++ ")"
     | none => ", json_tree(body)"
   else "") ++
  (if search_clauses.isEmpty then ""
   else " WHERE " ++ String.intercalate " " search_clauses)

/-- Embedding of `_generate_clause` (database.py lines 445-488): defaults the
predicate to `=` and the joiner to the empty string, then renders the clause
template in tree mode (with or without a key) or flat key-value mode. -/
def _generate_clause (key : Option String) (predicate : Option String)
    (joiner : Option String) (tree : Bool) (tree_with_key : Bool) : String :=
  let pred := predicate.getD "="
  let join := joiner.getD ""
  if tree then
    if tree_with_key then clause_template_render join key pred true false false
    else clause_template_render join none pred true false false
  else clause_template_render join key pred false true false

/-- Embedding of `_generate_query` (database.py lines 491-534): defaults the
result column to `body` and renders the search template, passing the key
only when it is truthy and tree mode is on. -/
def _generate_query (where_clauses : List String)
    (result_column : Option String) (key : Option String) (tree : Bool) :
    String :=
  let rc := result_column.getD "body"
  if tree then
    if pyTruthyStr key then search_template_render rc true key where_clauses
    else search_template_render rc true none where_clauses
  else search_template_render rc false none where_clauses

/-- One call to `cursor.execute`: the query text and the parameter sequence
handed separately to the engine. -/
structure ExecCall where
  query : String
  params : List PyVal
deriving DecidableEq, Repr

/-- Embedding of the unit of work of `find_nodes` (database.py lines
580-610): the executed call pairs the generated query text (computed from
the clause list, key and tree flag only) with the caller's bindings, which
are passed to the engine as parameters. -/
def find_nodes_call (where_clauses : List String) (bindings : List PyVal)
    (tree_query : Bool) (key : Option String) : ExecCall :=
  { query := _generate_query where_clauses none key tree_query
    params := bindings }

/-- A heap of document objects, indexed by reference; used to make the
in-place mutation Python performs on the caller's dictionary observable. -/
abbrev Heap := List Doc

/-- Heap-level embedding of `_set_id` (database.py lines 138-158): the
statement `data["id"] = identifier` mutates the dictionary object behind
`ref` in place, and the function returns the very same reference (no copy
is made). -/
def _set_id_heap (identifier : Option PyVal) (heap : Heap) (ref : Nat) :
    Heap × Nat :=
  match identifier with
  | none => (heap, ref)
  | some i => (heap.set ref (Doc.set (heap.getD ref []) "id" i), ref)

/-- Identifiers-only traversal as the specification words it: rows are
consumed in order to exhaustion, and each row's identifier is appended to
the path only if it is not already present. -/
def spec_exhaustive_path (rows : List (List PyVal)) : List PyVal :=
  rows.foldl
    (fun path row =>
      match row with
      | [] => path
      | identifier :: _ => if identifier ∈ path then path else path ++ [identifier])
    []

/-- Stopping predicate of the body-inclusion walk as the claim words it: the
yielded identifier equals the serialized target and the marker denotes a
node. -/
def isStopRow (target : String) (row : PyVal × PyVal × PyVal) : Bool :=
  decide (row.1 = PyVal.str target) && decide (row.2.1 = PyVal.str "()")

/-- Body-inclusion traversal as the claim words it: every row is kept, in
order, up to and including the first stopping row. -/
def takeThrough {α : Type} (p : α → Bool) : List α → List α
  | [] => []
  | x :: xs => if p x then [x] else x :: takeThrough p xs

namespace Doc

theorem get_eq_none_iff (d : Doc) (k : String) :
    get d k = none ↔ ∀ p ∈ d, p.1 ≠ k := by
  induction d with
  | nil => simp [get]
  | cons q rest ih =>
    obtain ⟨a, b⟩ := q
    by_cases h : a = k
    · subst h
      simp [get]
    · simp [get, h, ih]

theorem get_mem {d : Doc} {k : String} {v : PyVal} (h : get d k = some v) :
    (k, v) ∈ d := by
  induction d with
  | nil => simp [get] at h
  | cons q rest ih =>
    obtain ⟨a, b⟩ := q
    by_cases ha : a = k
    · subst ha
      simp [get] at h
      subst h
      exact List.mem_cons_self _ _
    · simp [get, ha] at h
      exact List.mem_cons_of_mem _ (ih h)

theorem get_some_ne_nil {d : Doc} {k : String} {v : PyVal}
    (h : get d k = some v) : d ≠ [] := by
  intro hnil
  subst hnil
  simp [get] at h

theorem any_key_iff (d : Doc) (k : String) :
    d.any (fun p => p.1 = k) = true ↔ ∃ p ∈ d, p.1 = k := by
  simp [List.any_eq_true]

theorem get_map_set {d : Doc} {k : String} (v : PyVal)
    (h : ∃ p ∈ d, p.1 = k) :
    get (d.map (fun p => if p.1 = k then (k, v) else p)) k = some v := by
  induction d with
  | nil => simp at h
  | cons q rest ih =>
    obtain ⟨a, b⟩ := q
    simp only [List.map_cons]
    by_cases ha : a = k
    · rw [if_pos ha]
      simp [get]
    · rw [if_neg ha]
      simp only [get]
      rw [if_neg ha]
      rcases h with ⟨p, hp, hpk⟩
      rcases List.mem_cons.1 hp with hp | hp
      · rw [hp] at hpk
        exact absurd hpk ha
      · exact ih ⟨p, hp, hpk⟩

theorem get_map_ne {d : Doc} {k k' : String} {v : PyVal} (h : k' ≠ k) :
    get (d.map (fun p => if p.1 = k' then (k', v) else p)) k = get d k := by
  induction d with
  | nil => simp [get]
  | cons q rest ih =>
    obtain ⟨a, b⟩ := q
    simp only [List.map_cons]
    by_cases ha : a = k'
    · rw [if_pos ha]
      have hak : a ≠ k := by rw [ha]; exact h
      simp only [get]
      rw [if_neg h, if_neg hak]
      exact ih
    · rw [if_neg ha]
      simp only [get]
      by_cases hak : a = k
      · rw [if_pos hak, if_pos hak]
      · rw [if_neg hak, if_neg hak]
        exact ih

theorem get_append_of_none {d1 : Doc} (d2 : Doc) {k : String}
    (h : get d1 k = none) : get (d1 ++ d2) k = get d2 k := by
  induction d1 with
  | nil => simp
  | cons q rest ih =>
    obtain ⟨a, b⟩ := q
    by_cases ha : a = k
    · simp [get, ha] at h
    · simp [get, ha] at h ⊢
      exact ih h

theorem get_append_single_ne (d : Doc) {k k' : String} (v : PyVal)
    (h : k' ≠ k) : get (d ++ [(k', v)]) k = get d k := by
  induction d with
  | nil => simp [get, h]
  | cons q rest ih =>
    obtain ⟨a, b⟩ := q
    by_cases ha : a = k <;> simp [get, ha, ih]

theorem get_set_self (d : Doc) (k : String) (v : PyVal) :
    get (set d k v) k = some v := by
  unfold set
  by_cases h : d.any (fun p => p.1 = k) = true
  · rw [if_pos h]
    exact get_map_set v ((any_key_iff d k).1 h)
  · rw [if_neg h]
    have hnone : get d k = none := by
      rw [get_eq_none_iff]
      intro p hp hpk
      exact h ((any_key_iff d k).2 ⟨p, hp, hpk⟩)
    rw [get_append_of_none _ hnone]
    simp [get]

theorem get_set_ne (d : Doc) {k k' : String} (v : PyVal) (h : k' ≠ k) :
    get (set d k' v) k = get d k := by
  unfold set
  by_cases hany : d.any (fun p => p.1 = k') = true
  · rw [if_pos hany]
    exact get_map_ne h
  · rw [if_neg hany]
    exact get_append_single_ne d v h

theorem mem_set_ne {d : Doc} {k' : String} {v : PyVal} {q : String × PyVal}
    (hq : q ∈ set d k' v) (hne : q.1 ≠ k') : q ∈ d := by
  unfold set at hq
  by_cases hany : d.any (fun p => p.1 = k') = true
  · rw [if_pos hany] at hq
    rcases List.mem_map.1 hq with ⟨p, hp, hpq⟩
    by_cases hpk : p.1 = k'
    · rw [if_pos hpk] at hpq
      rw [← hpq] at hne
      simp at hne
    · rw [if_neg hpk] at hpq
      rw [← hpq]
      exact hp
  · rw [if_neg hany] at hq
    rcases List.mem_append.1 hq with hq | hq
    · exact hq
    · simp at hq
      rw [hq] at hne
      simp at hne

theorem mem_set_of_mem_ne {d : Doc} {k' : String} {v : PyVal}
    {q : String × PyVal} (hq : q ∈ d) (hne : q.1 ≠ k') : q ∈ set d k' v := by
  unfold set
  by_cases hany : d.any (fun p => p.1 = k') = true
  · rw [if_pos hany]
    refine List.mem_map.2 ⟨q, hq, ?_⟩
    rw [if_neg hne]
  · rw [if_neg hany]
    exact List.mem_append.2 (Or.inl hq)

theorem any_set_ne {k k' : String} (d : Doc) (v : PyVal) (h : k ≠ k') :
    (set d k' v).any (fun p => p.1 = k) = d.any (fun p => p.1 = k) := by
  by_cases hd : d.any (fun p => p.1 = k) = true
  · rw [hd]
    rcases (any_key_iff d k).1 hd with ⟨p, hp, hpk⟩
    refine (any_key_iff _ k).2 ⟨p, mem_set_of_mem_ne hp ?_, hpk⟩
    rw [hpk]
    exact h
  · rw [Bool.eq_false_iff.2 hd]
    apply Bool.eq_false_iff.2
    intro hset
    apply hd
    rcases (any_key_iff _ k).1 hset with ⟨p, hp, hpk⟩
    have hpne : p.1 ≠ k' := by rw [hpk]; exact h
    exact (any_key_iff d k).2 ⟨p, mem_set_ne hp hpne, hpk⟩

theorem any_set_self (d : Doc) (k : String) (v : PyVal) :
    (set d k v).any (fun p => p.1 = k) = true := by
  refine (any_key_iff _ k).2 ⟨(k, v), ?_, rfl⟩
  unfold set
  by_cases hany : d.any (fun p => p.1 = k) = true
  · rw [if_pos hany]
    rcases (any_key_iff d k).1 hany with ⟨p, hp, hpk⟩
    refine List.mem_map.2 ⟨p, hp, ?_⟩
    rw [if_pos hpk]
  · rw [if_neg hany]
    simp

theorem entry_set_self {d : Doc} {k : String} {v : PyVal}
    {q : String × PyVal} (hq : q ∈ set d k v) (hk : q.1 = k) : q.2 = v := by
  unfold set at hq
  by_cases hany : d.any (fun p => p.1 = k) = true
  · rw [if_pos hany] at hq
    rcases List.mem_map.1 hq with ⟨p, hp, hpq⟩
    by_cases hpk : p.1 = k
    · rw [if_pos hpk] at hpq
      rw [← hpq]
    · rw [if_neg hpk] at hpq
      rw [← hpq] at hk
      exact absurd hk hpk
  · rw [if_neg hany] at hq
    rcases List.mem_append.1 hq with hq | hq
    · exact absurd ((any_key_iff d k).2 ⟨q, hq, hk⟩) hany
    · simp at hq
      rw [hq]

theorem set_of_any {d : Doc} {k : String} (v : PyVal)
    (h : d.any (fun p => p.1 = k) = true) :
    set d k v = d.map (fun p => if p.1 = k then (k, v) else p) := by
  unfold set
  rw [if_pos h]

theorem set_of_not_any {d : Doc} {k : String} (v : PyVal)
    (h : ¬ d.any (fun p => p.1 = k) = true) :
    set d k v = d ++ [(k, v)] := by
  unfold set
  rw [if_neg h]

theorem set_set_self (d : Doc) (k : String) (v w : PyVal) :
    set (set d k v) k w = set d k w := by
  have hany : (set d k v).any (fun p => p.1 = k) = true := any_set_self d k v
  rw [set_of_any w hany]
  by_cases hd : d.any (fun p => p.1 = k) = true
  · rw [set_of_any v hd, set_of_any w hd, List.map_map]
    apply List.map_congr_left
    intro p _
    by_cases hpk : p.1 = k
    · simp only [Function.comp, if_pos hpk]
      simp
    · simp only [Function.comp, if_neg hpk]
  · rw [set_of_not_any v hd, set_of_not_any w hd, List.map_append]
    have hmap : d.map (fun p => if p.1 = k then (k, w) else p) = d := by
      have hcong : ∀ p ∈ d, (if p.1 = k then (k, w) else p) = id p := by
        intro p hp
        have hpk : p.1 ≠ k := fun hk => hd ((any_key_iff d k).2 ⟨p, hp, hk⟩)
        rw [if_neg hpk]
        rfl
      rw [List.map_congr_left hcong, List.map_id]
    rw [hmap]
    simp

theorem set_eq_self {d : Doc} {k : String} {v : PyVal}
    (hval : ∀ q ∈ d, q.1 = k → q.2 = v)
    (hany : d.any (fun p => p.1 = k) = true) : set d k v = d := by
  unfold set
  rw [if_pos hany]
  have hcong : ∀ p ∈ d, (if p.1 = k then (k, v) else p) = id p := by
    intro p hp
    by_cases hpk : p.1 = k
    · rw [if_pos hpk]
      have hv := hval p hp hpk
      obtain ⟨a, b⟩ := p
      simp only [id]
      simp at hpk hv
      rw [hpk, hv]
    · rw [if_neg hpk]
      rfl
  rw [List.map_congr_left hcong, List.map_id]

theorem nodup_entry_unique {k : String} {v : PyVal} :
    ∀ (d : Doc), (d.map Prod.fst).Nodup → (k, v) ∈ d →
      ∀ q ∈ d, q.1 = k → q = (k, v) := by
  intro d
  induction d with
  | nil =>
    intro _ hv
    simp at hv
  | cons p0 rest ih =>
    intro hnd hv q hq hqk
    rw [List.map_cons, List.nodup_cons] at hnd
    rcases List.mem_cons.1 hv with hv | hv
    · rcases List.mem_cons.1 hq with hq | hq
      · rw [hq, ← hv]
      · exfalso
        apply hnd.1
        rw [← hv]
        show k ∈ List.map Prod.fst rest
        rw [← hqk]
        exact List.mem_map_of_mem Prod.fst hq
    · rcases List.mem_cons.1 hq with hq | hq
      · exfalso
        apply hnd.1
        have hmem : k ∈ List.map Prod.fst rest := by
          have := List.mem_map_of_mem Prod.fst hv
          simpa using this
        rw [hq] at hqk
        rw [← hqk] at hmem
        exact hmem
      · exact ih hnd.2 hv q hq hqk

theorem entries_of_get_nodup {d : Doc} {k : String} {v : PyVal}
    (hnd : (d.map Prod.fst).Nodup) (hget : get d k = some v) :
    ∀ q ∈ d, q.1 = k → q.2 = v := by
  intro q hq hqk
  have := nodup_entry_unique d hnd (get_mem hget) q hq hqk
  rw [this]

theorem get_merge_absent {k : String} (d : Doc) :
    ∀ a : Doc, (∀ p ∈ d, p.1 ≠ k) → get (merge a d) k = get a k := by
  induction d with
  | nil =>
    intro a _
    rfl
  | cons q d' ih =>
    obtain ⟨k0, v0⟩ := q
    intro a hall
    have hk0 : k0 ≠ k := hall (k0, v0) (List.mem_cons_self _ _)
    show get (merge (set a k0 v0) d') k = get a k
    rw [ih (set a k0 v0) (fun p hp => hall p (List.mem_cons_of_mem _ hp))]
    exact get_set_ne a v0 hk0

theorem get_merge_nodup (d : Doc) :
    ∀ (a : Doc) (k : String), (d.map Prod.fst).Nodup →
      get (merge a d) k =
        match get d k with
        | some v => some v
        | none => get a k := by
  induction d with
  | nil =>
    intro a k _
    rfl
  | cons q d' ih =>
    obtain ⟨k0, v0⟩ := q
    intro a k hnd
    rw [List.map_cons, List.nodup_cons] at hnd
    show get (merge (set a k0 v0) d') k = _
    by_cases hk : k0 = k
    · subst hk
      have habs : ∀ p ∈ d', p.1 ≠ k0 := by
        intro p hp hpk
        apply hnd.1
        show k0 ∈ List.map Prod.fst d'
        rw [← hpk]
        exact List.mem_map_of_mem Prod.fst hp
      rw [get_merge_absent d' (set a k0 v0) habs, get_set_self]
      simp [get]
    · rw [ih (set a k0 v0) k hnd.2]
      cases hgd : get d' k with
      | some v => simp [get, hk, hgd]
      | none => simp [get, hk, hgd, get_set_ne a v0 hk]

theorem merge_keep {k : String} {v : PyVal} (d : Doc) :
    ∀ a : Doc, (∀ p ∈ d, p.1 ≠ k) →
      (∀ q ∈ a, q.1 = k → q.2 = v) → a.any (fun p => p.1 = k) = true →
      (∀ q ∈ merge a d, q.1 = k → q.2 = v) ∧
        (merge a d).any (fun p => p.1 = k) = true := by
  induction d with
  | nil =>
    intro a _ hval hany
    exact ⟨hval, hany⟩
  | cons q0 d' ih =>
    obtain ⟨k0, v0⟩ := q0
    intro a hd hval hany
    have hk0 : k0 ≠ k := hd (k0, v0) (List.mem_cons_self _ _)
    show (∀ q ∈ merge (set a k0 v0) d', q.1 = k → q.2 = v) ∧
        (merge (set a k0 v0) d').any (fun p => p.1 = k) = true
    apply ih
    · intro p hp
      exact hd p (List.mem_cons_of_mem _ hp)
    · intro q hq hqk
      have hqne : q.1 ≠ k0 := by
        rw [hqk]
        exact fun hh => hk0 hh.symm
      exact hval q (mem_set_ne hq hqne) hqk
    · rw [any_set_ne a v0 (Ne.symm hk0)]
      exact hany

theorem merge_entry {k : String} {v : PyVal} (d : Doc) :
    ∀ a : Doc, (k, v) ∈ d → (d.map Prod.fst).Nodup →
      (∀ q ∈ merge a d, q.1 = k → q.2 = v) ∧
        (merge a d).any (fun p => p.1 = k) = true := by
  induction d with
  | nil =>
    intro a hv _
    simp at hv
  | cons p0 d' ih =>
    obtain ⟨k0, v0⟩ := p0
    intro a hv hnd
    rw [List.map_cons, List.nodup_cons] at hnd
    show (∀ q ∈ merge (set a k0 v0) d', q.1 = k → q.2 = v) ∧
        (merge (set a k0 v0) d').any (fun p => p.1 = k) = true
    rcases List.mem_cons.1 hv with hv | hv
    · injection hv with hk hvv
      subst hk
      subst hvv
      apply merge_keep
      · intro p hp hpk
        apply hnd.1
        show k ∈ List.map Prod.fst d'
        rw [← hpk]
        exact List.mem_map_of_mem Prod.fst hp
      · intro q hq hqk
        exact entry_set_self hq hqk
      · exact any_set_self a k v
    · exact ih (set a k0 v0) hv hnd.2

theorem merge_set_forced (i : PyVal) (d : Doc) :
    ∀ a : Doc,
      (∀ p ∈ d, p.1 ≠ "id" →
        (∀ q ∈ a, q.1 = p.1 → q.2 = p.2) ∧
          a.any (fun r => r.1 = p.1) = true) →
      set (merge a d) "id" i = set a "id" i := by
  induction d with
  | nil =>
    intro a _
    rfl
  | cons p0 d' ih =>
    obtain ⟨k0, v0⟩ := p0
    intro a hyp
    by_cases hk0 : k0 = "id"
    · subst hk0
      have hyp' : ∀ p ∈ d', p.1 ≠ "id" →
          (∀ q ∈ set a "id" v0, q.1 = p.1 → q.2 = p.2) ∧
            (set a "id" v0).any (fun r => r.1 = p.1) = true := by
        intro p hp hpne
        obtain ⟨h1, h2⟩ := hyp p (List.mem_cons_of_mem _ hp) hpne
        refine ⟨?_, ?_⟩
        · intro q hq hqk
          have hqid : q.1 ≠ "id" := by
            rw [hqk]
            exact hpne
          exact h1 q (mem_set_ne hq hqid) hqk
        · rw [any_set_ne a v0 hpne]
          exact h2
      show set (merge (set a "id" v0) d') "id" i = set a "id" i
      rw [ih (set a "id" v0) hyp', set_set_self]
    · obtain ⟨h1, h2⟩ := hyp (k0, v0) (List.mem_cons_self _ _) hk0
      show set (merge (set a k0 v0) d') "id" i = set a "id" i
      rw [set_eq_self h1 h2]
      apply ih
      intro p hp hpne
      exact hyp p (List.mem_cons_of_mem _ hp) hpne

end Doc


/-- Store invariant of claim C4: every stored node document carries the row
identifier it is stored under in its own id field. -/
def idInv (st : DBState) : Prop :=
  ∀ r ∈ st.nodes, Doc.get r.2 "id" = some r.1

theorem insertNodeRow_ok {st st2 : DBState} {body : Doc}
    (h : insertNodeRow st body = .ok st2) :
    ∃ i, Doc.get body "id" = some i ∧ i ≠ PyVal.pynone ∧
      st.nodes.any (fun r => r.1 = i) = false ∧
      st2.nodes = st.nodes ++ [(i, body)] ∧ st2.edges = st.edges := by
  unfold insertNodeRow at h
  cases hget : Doc.get body "id" with
  | none => rw [hget] at h; cases h
  | some i =>
    rw [hget] at h
    dsimp only at h
    by_cases hn : i = PyVal.pynone
    · rw [if_pos hn] at h
      cases h
    · rw [if_neg hn] at h
      by_cases hany : st.nodes.any (fun r => r.1 = i) = true
      · rw [if_pos hany] at h
        cases h
      · rw [if_neg hany] at h
        cases h
        exact ⟨i, rfl, hn, Bool.eq_false_iff.2 hany, rfl, rfl⟩

theorem insertEdgeRow_ok {st st2 : DBState} {s t : PyVal} {props : Doc}
    (h : insertEdgeRow st s t props = .ok st2) :
    st2.nodes = st.nodes ∧ st2.edges = st.edges ++ [(s, t, props)] := by
  unfold insertEdgeRow at h
  by_cases hs : st.nodes.any (fun r => r.1 = s) = true
  · rw [if_pos hs] at h
    by_cases ht : st.nodes.any (fun r => r.1 = t) = true
    · rw [if_pos ht] at h
      cases h
      exact ⟨rfl, rfl⟩
    · rw [if_neg ht] at h
      cases h
  · rw [if_neg hs] at h
    cases h

theorem find?_eq_none_of_not_any {l : List (PyVal × Doc)} {i : PyVal}
    (h : l.any (fun r => r.1 = i) = false) :
    l.find? (fun r => r.1 = i) = none := by
  rw [List.find?_eq_none]
  intro r hr
  intro hri
  have : l.any (fun r => r.1 = i) = true :=
    List.any_eq_true.2 ⟨r, hr, hri⟩
  rw [this] at h
  cases h

theorem find_node_of_not_any {st : DBState} {i : PyVal}
    (h : st.nodes.any (fun r => r.1 = i) = false) : find_node i st = [] := by
  unfold find_node
  rw [find?_eq_none_of_not_any h]

theorem find?_append_self {l : List (PyVal × Doc)} {i : PyVal} (body : Doc)
    (h : l.any (fun r => r.1 = i) = false) :
    (l ++ [(i, body)]).find? (fun r => r.1 = i) = some (i, body) := by
  rw [List.find?_append, find?_eq_none_of_not_any h]
  simp [List.find?]

theorem find?_map_update {i : PyVal} (body : Doc) :
    ∀ l : List (PyVal × Doc), (l.find? (fun r => r.1 = i)).isSome →
      (l.map (fun r => if r.1 = i then (i, body) else r)).find?
        (fun r => r.1 = i) = some (i, body) := by
  intro l
  induction l with
  | nil => intro h; simp [List.find?] at h
  | cons r l' ih =>
    intro h
    by_cases hr : r.1 = i
    · simp only [List.map_cons]
      rw [if_pos hr]
      simp [List.find?]
    · simp only [List.map_cons]
      rw [if_neg hr]
      rw [List.find?_cons_of_neg _ (by simpa using hr)] at h ⊢
      exact ih h

theorem foldlM_except_cons {β σ : Type} (f : σ → β → Except DBErr σ)
    (b : β) (l : List β) (st : σ) :
    (b :: l).foldlM f st =
      match f st b with
      | .ok st1 => l.foldlM f st1
      | .error e => .error e := by
  rw [List.foldlM_cons]
  cases f st b <;> rfl

theorem foldlM_preserve {β : Type} {P : DBState → Prop}
    {f : DBState → β → Except DBErr DBState}
    (hf : ∀ st b st', P st → f st b = .ok st' → P st') :
    ∀ (l : List β) (st st' : DBState),
      P st → l.foldlM f st = .ok st' → P st' := by
  intro l
  induction l with
  | nil =>
    intro st st' hP h
    rw [List.foldlM_nil] at h
    cases h
    exact hP
  | cons b l' ih =>
    intro st st' hP h
    rw [foldlM_except_cons] at h
    cases hfb : f st b with
    | error e =>
      rw [hfb] at h
      cases h
    | ok st1 =>
      rw [hfb] at h
      exact ih st1 st' (hf st b st1 hP hfb) h

theorem insertNodeRow_idInv {st st2 : DBState} {body : Doc}
    (hi : idInv st) (h : insertNodeRow st body = .ok st2) : idInv st2 := by
  obtain ⟨i, hget, _, _, hnodes, _⟩ := insertNodeRow_ok h
  intro r hr
  rw [hnodes] at hr
  rcases List.mem_append.1 hr with hr | hr
  · exact hi r hr
  · simp at hr
    rw [hr]
    exact hget

theorem updateNodeRow_idInv {st : DBState} {body : Doc} {i : PyVal}
    (hi : idInv st) (hbody : Doc.get body "id" = some i) :
    idInv (updateNodeRow st body i) := by
  intro r hr
  unfold updateNodeRow at hr
  simp only at hr
  rcases List.mem_map.1 hr with ⟨r0, hr0, hrr⟩
  by_cases hr0i : r0.1 = i
  · rw [if_pos hr0i] at hrr
    rw [← hrr]
    exact hbody
  · rw [if_neg hr0i] at hrr
    rw [← hrr]
    exact hi r0 hr0

theorem _upsert_node_idInv {st st2 : DBState} {i : PyVal} {d : Doc}
    (hi : idInv st) (h : _upsert_node i d st = .ok st2) : idInv st2 := by
  unfold _upsert_node at h
  by_cases hempty : (find_node i st).isEmpty = true
  · rw [if_pos hempty] at h
    exact insertNodeRow_idInv hi h
  · rw [if_neg hempty] at h
    cases h
    exact updateNodeRow_idInv hi (Doc.get_set_self _ "id" i)

theorem nodup_append_singleton {α : Type} {l : List α} {x : α}
    (h : l.Nodup) (hx : x ∉ l) : (l ++ [x]).Nodup := by
  rw [List.nodup_append]
  exact ⟨h, List.nodup_singleton x, List.disjoint_singleton.2 hx⟩

theorem traverseIdsLoop_nodup (target : String) :
    ∀ (rows : List (List PyVal)) (path : List PyVal),
      path.Nodup → (traverseIdsLoop target rows path).Nodup := by
  intro rows
  induction rows with
  | nil =>
    intro path h
    exact h
  | cons row rest ih =>
    intro path h
    cases row with
    | nil => exact ih path h
    | cons identifier tail =>
      simp only [traverseIdsLoop]
      by_cases hm : identifier ∈ path
      · rw [if_pos hm]
        exact ih path h
      · rw [if_neg hm]
        by_cases ht : identifier = PyVal.str target
        · rw [if_pos ht]
          exact nodup_append_singleton h hm
        · rw [if_neg ht]
          exact ih (path ++ [identifier]) (nodup_append_singleton h hm)

theorem traverseIdsLoop_stop (target : String) :
    ∀ (rows rows2 : List (List PyVal)) (path : List PyVal),
      PyVal.str target ∉ path →
      PyVal.str target ∈ traverseIdsLoop target rows path →
      traverseIdsLoop target (rows ++ rows2) path =
        traverseIdsLoop target rows path := by
  intro rows
  induction rows with
  | nil =>
    intro rows2 path hnp hmem
    exact absurd hmem hnp
  | cons row rest ih =>
    intro rows2 path hnp hmem
    cases row with
    | nil =>
      show traverseIdsLoop target (rest ++ rows2) path = _
      exact ih rows2 path hnp hmem
    | cons identifier tail =>
      simp only [List.cons_append, traverseIdsLoop] at hmem ⊢
      by_cases hm : identifier ∈ path
      · rw [if_pos hm] at hmem
        rw [if_pos hm, if_pos hm]
        exact ih rows2 path hnp hmem
      · rw [if_neg hm] at hmem
        rw [if_neg hm, if_neg hm]
        by_cases ht : identifier = PyVal.str target
        · rw [if_pos ht] at hmem
          rw [if_pos ht, if_pos ht]
        · rw [if_neg ht] at hmem
          rw [if_neg ht, if_neg ht]
          apply ih rows2 (path ++ [identifier]) ?_ hmem
          intro hcon
          rcases List.mem_append.1 hcon with hcon | hcon
          · exact hnp hcon
          · simp at hcon
            exact ht hcon.symm

theorem traverseIdsLoop_last (target : String) :
    ∀ (rows : List (List PyVal)) (path : List PyVal),
      PyVal.str target ∉ path →
      PyVal.str target ∈ traverseIdsLoop target rows path →
      (traverseIdsLoop target rows path).getLast? =
        some (PyVal.str target) := by
  intro rows
  induction rows with
  | nil =>
    intro path hnp hmem
    exact absurd hmem hnp
  | cons row rest ih =>
    intro path hnp hmem
    cases row with
    | nil => exact ih path hnp hmem
    | cons identifier tail =>
      simp only [traverseIdsLoop] at hmem ⊢
      by_cases hm : identifier ∈ path
      · rw [if_pos hm] at hmem ⊢
        exact ih path hnp hmem
      · rw [if_neg hm] at hmem ⊢
        by_cases ht : identifier = PyVal.str target
        · rw [if_pos ht] at hmem ⊢
          rw [ht]
          exact List.getLast?_concat path
        · rw [if_neg ht] at hmem ⊢
          apply ih (path ++ [identifier]) ?_ hmem
          intro hcon
          rcases List.mem_append.1 hcon with hcon | hcon
          · exact hnp hcon
          · simp at hcon
            exact ht hcon.symm

theorem traverseIdsLoop_exhaust (target : String) :
    ∀ (rows : List (List PyVal)) (path : List PyVal),
      (∀ row ∈ rows, row.head? ≠ some (PyVal.str target)) →
      traverseIdsLoop target rows path =
        rows.foldl
          (fun p row =>
            match row with
            | [] => p
            | identifier :: _ =>
              if identifier ∈ p then p else p ++ [identifier])
          path := by
  intro rows
  induction rows with
  | nil =>
    intro path _
    rfl
  | cons row rest ih =>
    intro path hno
    cases row with
    | nil =>
      show traverseIdsLoop target rest path = _
      rw [List.foldl_cons]
      exact ih path (fun r hr => hno r (List.mem_cons_of_mem _ hr))
    | cons identifier tail =>
      have hid : identifier ≠ PyVal.str target := by
        intro hc
        exact hno (identifier :: tail) (List.mem_cons_self _ _) (by rw [hc]; rfl)
      have hrest : ∀ r ∈ rest, r.head? ≠ some (PyVal.str target) :=
        fun r hr => hno r (List.mem_cons_of_mem _ hr)
      rw [List.foldl_cons]
      simp only [traverseIdsLoop]
      by_cases hm : identifier ∈ path
      · rw [if_pos hm, if_pos hm]
        exact ih path hrest
      · rw [if_neg hm, if_neg hm, if_neg hid]
        exact ih (path ++ [identifier]) hrest

theorem takeThrough_nil_iff {α : Type} (p : α → Bool) (l : List α) :
    takeThrough p l = [] ↔ l = [] := by
  cases l with
  | nil => simp [takeThrough]
  | cons x xs =>
    simp only [takeThrough]
    by_cases hx : p x = true
    · rw [if_pos hx]
      simp
    · rw [if_neg hx]
      simp

theorem traverseBodiesLoop_eq (target : String) :
    ∀ (rows path : List (PyVal × PyVal × PyVal)),
      traverseBodiesLoop target rows path =
        path ++ takeThrough (isStopRow target) rows := by
  intro rows
  induction rows with
  | nil =>
    intro path
    simp [traverseBodiesLoop, takeThrough]
  | cons row rest ih =>
    intro path
    simp only [traverseBodiesLoop, takeThrough]
    by_cases hstop : row.1 = PyVal.str target ∧ row.2.1 = PyVal.str "()"
    · rw [if_pos hstop]
      have hb : isStopRow target row = true := by
        unfold isStopRow
        rw [hstop.1, hstop.2]
        simp
      rw [if_pos hb]
    · rw [if_neg hstop]
      have hb : isStopRow target row = false := by
        unfold isStopRow
        rcases not_and_or.1 hstop with h | h <;> simp [h]
      rw [if_neg (by rw [hb]; exact Bool.false_ne_true), ih (path ++ [row])]
      simp

theorem takeThrough_prefix {α : Type} (p : α → Bool) :
    ∀ l : List α, takeThrough p l <+: l := by
  intro l
  induction l with
  | nil => exact ⟨[], rfl⟩
  | cons x xs ih =>
    simp only [takeThrough]
    by_cases hx : p x = true
    · rw [if_pos hx]
      exact ⟨xs, rfl⟩
    · rw [if_neg hx]
      obtain ⟨t, ht⟩ := ih
      exact ⟨t, by rw [List.cons_append, ht]⟩

theorem takeThrough_dropLast {α : Type} (p : α → Bool) :
    ∀ l : List α, ∀ x ∈ (takeThrough p l).dropLast, p x = false := by
  intro l
  induction l with
  | nil =>
    intro x hx
    simp [takeThrough] at hx
  | cons y ys ih =>
    intro x hx
    simp only [takeThrough] at hx
    by_cases hy : p y = true
    · rw [if_pos hy] at hx
      simp at hx
    · rw [if_neg hy] at hx
      by_cases hnil : takeThrough p ys = []
      · rw [hnil] at hx
        simp at hx
      · rw [List.dropLast_cons_of_ne_nil hnil] at hx
        rcases List.mem_cons.1 hx with hx | hx
        · rw [hx]
          exact Bool.eq_false_iff.2 hy
        · exact ih x hx

theorem takeThrough_last {α : Type} (p : α → Bool) :
    ∀ (l : List α) (r : α), (takeThrough p l).getLast? = some r →
      p r = true ∨ takeThrough p l = l := by
  intro l
  induction l with
  | nil =>
    intro r hr
    simp [takeThrough] at hr
  | cons x xs ih =>
    intro r hr
    simp only [takeThrough] at hr ⊢
    by_cases hx : p x = true
    · rw [if_pos hx] at hr
      simp at hr
      rw [← hr]
      exact Or.inl hx
    · rw [if_neg hx] at hr ⊢
      by_cases hnil : takeThrough p xs = []
      · rw [hnil] at hr
        simp at hr
        have hxs : xs = [] := (takeThrough_nil_iff p xs).1 hnil
        rw [hnil, hxs]
        exact Or.inr rfl
      · obtain ⟨y, ys, hys⟩ := List.exists_cons_of_ne_nil hnil
        rw [hys] at hr
        rw [List.getLast?_cons_cons] at hr
        rw [← hys] at hr
        rcases ih r hr with h | h
        · exact Or.inl h
        · rw [h]
          exact Or.inr rfl

theorem atomic_asUnit_error {g : DBState → Except DBErr DBState}
    {db : DBState} {e : DBErr} (h : g db = .error e) :
    (atomic (.ok ()) db (asUnit g)).2.1 = db := by
  unfold atomic asUnit
  rw [h]
  rfl

theorem atomic_asUnit_ok {g : DBState → Except DBErr DBState}
    {db db2 : DBState} (h : g db = .ok db2) :
    (atomic (.ok ()) db (asUnit g)).2.1 = db2 := by
  unfold atomic asUnit
  rw [h]
  rfl

theorem atomic_asUnit_cases (g : DBState → Except DBErr DBState)
    (db : DBState) :
    (atomic (.ok ()) db (asUnit g)).2.1 = db ∨
      g db = .ok ((atomic (.ok ()) db (asUnit g)).2.1) := by
  cases h : g db with
  | error e => exact Or.inl (atomic_asUnit_error h)
  | ok db2 =>
    right
    rw [atomic_asUnit_ok h]

theorem connect_many_fold_ok :
    ∀ (l : List (PyVal × PyVal × Doc)) (st st2 : DBState),
      l.foldlM (fun acc p => insertEdgeRow acc p.1 p.2.1 p.2.2) st = .ok st2 →
      st2.nodes = st.nodes ∧ st2.edges = st.edges ++ l := by
  intro l
  induction l with
  | nil =>
    intro st st2 h
    rw [List.foldlM_nil] at h
    cases h
    exact ⟨rfl, by simp⟩
  | cons p l' ih =>
    intro st st2 h
    rw [foldlM_except_cons] at h
    cases hp : insertEdgeRow st p.1 p.2.1 p.2.2 with
    | error e =>
      rw [hp] at h
      cases h
    | ok st1 =>
      rw [hp] at h
      obtain ⟨hn, he⟩ := insertEdgeRow_ok hp
      obtain ⟨hn2, he2⟩ := ih st1 st2 h
      refine ⟨by rw [hn2, hn], ?_⟩
      rw [he2, he, List.append_assoc]
      rfl

theorem find?_isSome_of_find_node_ne {st : DBState} {i : PyVal}
    (h : find_node i st ≠ []) :
    (st.nodes.find? (fun r => r.1 = i)).isSome := by
  unfold find_node at h
  cases hf : st.nodes.find? (fun r => r.1 = i) with
  | none =>
    rw [hf] at h
    exact absurd rfl h
  | some r => rfl

theorem find_node_updateNodeRow {st : DBState} {i : PyVal} (body : Doc)
    (h : (st.nodes.find? (fun r => r.1 = i)).isSome) :
    find_node i (updateNodeRow st body i) = body := by
  unfold find_node updateNodeRow
  simp only
  rw [find?_map_update body st.nodes h]

theorem find_node_insert {st st1 : DBState} {body : Doc} {i : PyVal}
    (hany : st.nodes.any (fun r => r.1 = i) = false)
    (hnodes : st1.nodes = st.nodes ++ [(i, body)]) :
    find_node i st1 = body := by
  unfold find_node
  rw [hnodes, find?_append_self body hany]

/-- Claim C1: for every database state and unit of work, `atomic` opens
exactly one connection, enables foreign-key enforcement before running the
unit of work, commits and returns the unit's result on normal return,
propagates the exception without committing (the committed state stays the
original) when the unit fails, and closes the connection on every exit path
on which it was opened. -/
theorem C1_atomic_contract {α : Type} (db : DBState)
    (fn : DBState → Except DBErr (α × DBState)) :
    ((atomic (.ok ()) db fn).2.2.count Ev.openConn = 1) ∧
    ((atomic (.ok ()) db fn).2.2.take 3 =
      [Ev.openConn, Ev.enableFK, Ev.runUnit]) ∧
    (∀ a db2, fn db = .ok (a, db2) →
      (atomic (.ok ()) db fn).1 = .ok a ∧
      (atomic (.ok ()) db fn).2.1 = db2 ∧
      Ev.commit ∈ (atomic (.ok ()) db fn).2.2) ∧
    (∀ e, fn db = .error e →
      (atomic (.ok ()) db fn).1 = .error e ∧
      (atomic (.ok ()) db fn).2.1 = db ∧
      Ev.commit ∉ (atomic (.ok ()) db fn).2.2) ∧
    (∀ connect : Except DBErr Unit,
      Ev.openConn ∈ (atomic connect db fn).2.2 →
      Ev.closeConn ∈ (atomic connect db fn).2.2) := by
  refine ⟨?_, ?_, ?_, ?_, ?_⟩
  · unfold atomic
    cases hfn : fn db with
    | ok res => rfl
    | error e => rfl
  · unfold atomic
    cases hfn : fn db with
    | ok res => rfl
    | error e => rfl
  · intro a db2 h
    unfold atomic
    rw [h]
    refine ⟨rfl, rfl, ?_⟩
    show Ev.commit ∈ [Ev.openConn, Ev.enableFK, Ev.runUnit, Ev.commit, Ev.closeConn]
    decide
  · intro e h
    unfold atomic
    rw [h]
    refine ⟨rfl, rfl, ?_⟩
    show Ev.commit ∉ [Ev.openConn, Ev.enableFK, Ev.runUnit, Ev.closeConn]
    decide
  · intro connect
    cases connect with
    | error e =>
      intro h
      simp [atomic] at h
    | ok u =>
      cases u
      unfold atomic
      cases hfn : fn db with
      | ok res =>
        intro _
        show Ev.closeConn ∈ [Ev.openConn, Ev.enableFK, Ev.runUnit, Ev.commit, Ev.closeConn]
        decide
      | error e =>
        intro _
        show Ev.closeConn ∈ [Ev.openConn, Ev.enableFK, Ev.runUnit, Ev.closeConn]
        decide

/-- Witness for C1: a succeeding and a failing unit of work on the empty
database, with the committed result and the propagated failure produced by
the contract theorem. -/
theorem C1_atomic_contract_witness :
    ((fun st => Except.ok (7, st) : DBState → Except DBErr (Nat × DBState))
        ⟨[], []⟩ = .ok (7, (⟨[], []⟩ : DBState))) ∧
    ((fun _ => Except.error DBErr.fkViolation :
        DBState → Except DBErr (Nat × DBState)) ⟨[], []⟩ =
      .error DBErr.fkViolation) ∧
    (atomic (.ok ()) ⟨[], []⟩
        (fun st => (Except.ok (7, st) : Except DBErr (Nat × DBState)))).1 =
      .ok 7 ∧
    (atomic (.ok ()) ⟨[], []⟩
        (fun _ => (Except.error DBErr.fkViolation :
          Except DBErr (Nat × DBState)))).2.1 = ⟨[], []⟩ := by
  refine ⟨rfl, rfl, ?_, ?_⟩
  · exact ((C1_atomic_contract ⟨[], []⟩
      (fun st => Except.ok (7, st))).2.2.1 7 ⟨[], []⟩ rfl).1
  · exact ((C1_atomic_contract ⟨[], []⟩
      (fun _ => Except.error DBErr.fkViolation)).2.2.2.1
        DBErr.fkViolation rfl).2.1

/-- Claim C9: the generated search query text is a function of the clause
shape alone (clause list, tree flag, key; result column defaulted), never of
the caller's binding values: two calls with the same shape and different
bindings produce identical query text, and the bindings reach the engine
only as the separate bound-parameter sequence. -/
theorem C9_query_text_independent_of_bindings
    (where_clauses : List String) (b1 b2 : List PyVal) (tree_query : Bool)
    (key : Option String) :
    (find_nodes_call where_clauses b1 tree_query key).query =
      (find_nodes_call where_clauses b2 tree_query key).query ∧
    (find_nodes_call where_clauses b1 tree_query key).params = b1 ∧
    (find_nodes_call where_clauses b1 tree_query key).query =
      _generate_query where_clauses none key tree_query :=
  ⟨rfl, rfl, rfl⟩

/-- Claim C10: heap-level `_set_id` with a provided identifier mutates the
caller's document object in place: it returns the same reference, the
document behind that reference afterwards carries the forced id entry, and
every other heap cell is untouched — no copy is made. -/
theorem C10_set_id_mutates_caller (heap : Heap) (ref : Nat) (i : PyVal)
    (h : ref < heap.length) :
    (_set_id_heap (some i) heap ref).2 = ref ∧
    (_set_id_heap (some i) heap ref).1.length = heap.length ∧
    (_set_id_heap (some i) heap ref).1.getD ref [] =
      Doc.set (heap.getD ref []) "id" i ∧
    Doc.get ((_set_id_heap (some i) heap ref).1.getD ref []) "id" = some i ∧
    (∀ j, j ≠ ref → (_set_id_heap (some i) heap ref).1.getD j [] =
      heap.getD j []) := by
  unfold _set_id_heap
  refine ⟨rfl, List.length_set heap ref _, ?_, ?_, ?_⟩
  · rw [List.getD_eq_getElem?_getD, List.getElem?_set_eq_of_lt _ h]
    rfl
  · rw [List.getD_eq_getElem?_getD, List.getElem?_set_eq_of_lt _ h]
    exact Doc.get_set_self _ "id" i
  · intro j hj
    rw [List.getD_eq_getElem?_getD, List.getElem?_set_ne (Ne.symm hj),
      ← List.getD_eq_getElem?_getD]

/-- Witness for C10: mutating the first of two heap cells forces the id key
there and leaves the second cell unchanged. -/
theorem C10_set_id_mutates_caller_witness :
    (0 : Nat) <
      ([[("name", PyVal.str "Jobs")], [("x", PyVal.int 1)]] : Heap).length ∧
    (_set_id_heap (some (PyVal.str "3"))
        [[("name", PyVal.str "Jobs")], [("x", PyVal.int 1)]] 0).2 = 0 ∧
    (_set_id_heap (some (PyVal.str "3"))
        [[("name", PyVal.str "Jobs")], [("x", PyVal.int 1)]] 0).1.getD 0 [] =
      [("name", PyVal.str "Jobs"), ("id", PyVal.str "3")] ∧
    (_set_id_heap (some (PyVal.str "3"))
        [[("name", PyVal.str "Jobs")], [("x", PyVal.int 1)]] 0).1.getD 1 [] =
      [("x", PyVal.int 1)] := by
  have h := C10_set_id_mutates_caller
    [[("name", PyVal.str "Jobs")], [("x", PyVal.int 1)]] 0 (PyVal.str "3")
    (by decide)
  refine ⟨by decide, h.1, ?_, ?_⟩
  · rw [h.2.2.1]
    decide
  · rw [h.2.2.2.2 1 (by decide)]
    decide

/-- Claim C8: bulk operations are all-or-nothing through the transaction
wrapper: a bulk edge connect that fails on any element (for example a
foreign-key violation) commits nothing, a fully successful one commits all
its edges in order, and bulk insert, bulk upsert and bulk remove likewise
commit either the original state or the state with every element applied —
a partially applied state is never committed. -/
theorem C8_bulk_all_or_nothing (db : DBState) :
    (∀ (sources targets : List PyVal) (properties : List Doc) (e : DBErr),
      connect_many_nodes sources targets properties db = .error e →
      (atomic (.ok ()) db
        (asUnit (connect_many_nodes sources targets properties))).2.1 = db) ∧
    (∀ (sources targets : List PyVal) (properties : List Doc)
        (db2 : DBState),
      connect_many_nodes sources targets properties db = .ok db2 →
      (atomic (.ok ()) db
        (asUnit (connect_many_nodes sources targets properties))).2.1 = db2 ∧
      db2.nodes = db.nodes ∧
      db2.edges = db.edges ++ List.zip sources (List.zip targets properties)) ∧
    (∀ (nodes : List Doc) (ids : List (Option PyVal)),
      (atomic (.ok ()) db (asUnit (add_nodes nodes ids))).2.1 = db ∨
      add_nodes nodes ids db =
        .ok ((atomic (.ok ()) db (asUnit (add_nodes nodes ids))).2.1)) ∧
    (∀ (nodes : List Doc) (ids : List PyVal),
      (atomic (.ok ()) db (asUnit (upsert_nodes nodes ids))).2.1 = db ∨
      upsert_nodes nodes ids db =
        .ok ((atomic (.ok ()) db (asUnit (upsert_nodes nodes ids))).2.1)) ∧
    (∀ identifiers : List PyVal,
      (atomic (.ok ()) db (asUnit (remove_nodes identifiers))).2.1 = db ∨
      remove_nodes identifiers db =
        .ok ((atomic (.ok ()) db (asUnit (remove_nodes identifiers))).2.1)) := by
  refine ⟨?_, ?_, ?_, ?_, ?_⟩
  · intro sources targets properties e h
    exact atomic_asUnit_error h
  · intro sources targets properties db2 h
    obtain ⟨hn, he⟩ := connect_many_fold_ok _ db db2 h
    exact ⟨atomic_asUnit_ok h, hn, he⟩
  · intro nodes ids
    exact atomic_asUnit_cases _ db
  · intro nodes ids
    exact atomic_asUnit_cases _ db
  · intro identifiers
    exact atomic_asUnit_cases _ db

/-- Witness for C8: on a one-node database, a two-edge bulk connect whose
second edge references a missing node fails as a whole and the committed
state is unchanged (zero edges from the batch). -/
theorem C8_bulk_all_or_nothing_witness :
    connect_many_nodes [PyVal.str "a", PyVal.str "a"]
        [PyVal.str "a", PyVal.str "missing"] [[], []]
        ⟨[(PyVal.str "a", [("id", PyVal.str "a")])], []⟩ =
      .error DBErr.fkViolation ∧
    (atomic (.ok ()) ⟨[(PyVal.str "a", [("id", PyVal.str "a")])], []⟩
        (asUnit (connect_many_nodes [PyVal.str "a", PyVal.str "a"]
          [PyVal.str "a", PyVal.str "missing"] [[], []]))).2.1 =
      ⟨[(PyVal.str "a", [("id", PyVal.str "a")])], []⟩ := by
  refine ⟨rfl, ?_⟩
  exact (C8_bulk_all_or_nothing
    ⟨[(PyVal.str "a", [("id", PyVal.str "a")])], []⟩).1
    [PyVal.str "a", PyVal.str "a"] [PyVal.str "a", PyVal.str "missing"]
    [[], []] DBErr.fkViolation rfl

/-- Claim C4: every node-store write (single and bulk insert, single and
bulk upsert) maintains the store invariant that the stored document's id
field equals the identifier the node is stored under, whatever id key the
caller's document carried — including inserts with no identifier supplied. -/
theorem C4_body_id_invariant (st : DBState) (hinv : idInv st) :
    (∀ (data : Doc) (identifier : Option PyVal) (st2 : DBState),
      add_node data identifier st = .ok st2 → idInv st2) ∧
    (∀ (nodes : List Doc) (ids : List (Option PyVal)) (st2 : DBState),
      add_nodes nodes ids st = .ok st2 → idInv st2) ∧
    (∀ (identifier : PyVal) (data : Doc) (st2 : DBState),
      upsert_node identifier data st = .ok st2 → idInv st2) ∧
    (∀ (nodes : List Doc) (ids : List PyVal) (st2 : DBState),
      upsert_nodes nodes ids st = .ok st2 → idInv st2) := by
  refine ⟨?_, ?_, ?_, ?_⟩
  · intro data identifier st2 h
    exact insertNodeRow_idInv hinv h
  · intro nodes ids st2 h
    exact foldlM_preserve
      (fun s b s' hP hb => insertNodeRow_idInv hP hb) _ st st2 hinv h
  · intro identifier data st2 h
    exact _upsert_node_idInv hinv h
  · intro nodes ids st2 h
    exact foldlM_preserve
      (fun s b s' hP hb => _upsert_node_idInv hP hb) _ st st2 hinv h

/-- Witness for C4: inserting a document with no id key under identifier 1
stores it with the id field forced, and the invariant holds afterwards. -/
theorem C4_body_id_invariant_witness :
    idInv ⟨[], []⟩ ∧
    add_node [("name", PyVal.str "Apple")] (some (PyVal.int 1)) ⟨[], []⟩ =
      .ok ⟨[(PyVal.int 1,
        [("name", PyVal.str "Apple"), ("id", PyVal.int 1)])], []⟩ ∧
    idInv ⟨[(PyVal.int 1,
      [("name", PyVal.str "Apple"), ("id", PyVal.int 1)])], []⟩ := by
  have hinv : idInv (⟨[], []⟩ : DBState) := by
    intro r hr
    simp at hr
  refine ⟨hinv, rfl, ?_⟩
  exact (C4_body_id_invariant ⟨[], []⟩ hinv).1
    [("name", PyVal.str "Apple")] (some (PyVal.int 1)) _ rfl

/-- Claim C5: removing node A deletes every edge with A as source or target
before the node row (so the removal succeeds under foreign-key enforcement);
afterwards zero edges reference A and any other node B keeps its document
unchanged. -/
theorem C5_remove_cascade (st : DBState) (A B : PyVal) (docB props : Doc)
    (hB : (B, docB) ∈ st.nodes) (hAB : A ≠ B)
    (hedge : (A, B, props) ∈ st.edges ∨ (B, A, props) ∈ st.edges) :
    ∃ st2, remove_node A st = .ok st2 ∧
      (∀ e ∈ st2.edges, ¬(e.1 = A ∨ e.2.1 = A)) ∧
      (B, docB) ∈ st2.nodes := by
  have hfilter : ((st.edges.filter
      (fun e => ¬(e.1 = A ∨ e.2.1 = A))).any
        (fun e => e.1 = A ∨ e.2.1 = A)) = false := by
    rw [Bool.eq_false_iff]
    intro hany
    rcases List.any_eq_true.1 hany with ⟨e, he, hP⟩
    have hmemP := List.of_mem_filter he
    simp only [decide_eq_true_eq] at hmemP hP
    exact hmemP hP
  refine ⟨⟨st.nodes.filter (fun r => ¬ r.1 = A),
    st.edges.filter (fun e => ¬(e.1 = A ∨ e.2.1 = A))⟩, ?_, ?_, ?_⟩
  · show deleteNodeRow (deleteEdgeRows st A A) A = _
    unfold deleteEdgeRows deleteNodeRow
    simp only
    rw [if_neg (by rw [hfilter]; exact Bool.false_ne_true)]
  · intro e he
    have := List.of_mem_filter he
    simpa using this
  · refine List.mem_filter.2 ⟨hB, ?_⟩
    simp only [decide_eq_true_eq]
    intro hcon
    exact hAB hcon.symm

/-- Witness for C5: removing A from a two-node graph with one A-to-B edge
leaves no edge touching A and keeps B with its document. -/
theorem C5_remove_cascade_witness :
    ((PyVal.str "B", [("id", PyVal.str "B")]) ∈
      (⟨[(PyVal.str "A", [("id", PyVal.str "A")]),
          (PyVal.str "B", [("id", PyVal.str "B")])],
        [(PyVal.str "A", PyVal.str "B", [])]⟩ : DBState).nodes) ∧
    PyVal.str "A" ≠ PyVal.str "B" ∧
    (∃ st2, remove_node (PyVal.str "A")
        ⟨[(PyVal.str "A", [("id", PyVal.str "A")]),
          (PyVal.str "B", [("id", PyVal.str "B")])],
         [(PyVal.str "A", PyVal.str "B", [])]⟩ = .ok st2 ∧
      (∀ e ∈ st2.edges, ¬(e.1 = PyVal.str "A" ∨ e.2.1 = PyVal.str "A")) ∧
      (PyVal.str "B", [("id", PyVal.str "B")]) ∈ st2.nodes) := by
  refine ⟨by decide, by decide, ?_⟩
  exact C5_remove_cascade _ (PyVal.str "A") (PyVal.str "B")
    [("id", PyVal.str "B")] [] (by decide) (by decide)
    (Or.inl (by decide))

/-- Counterexample to claim C2 as stated: with document AB stored under
identifier "3", upserting a document whose id key carries the mismatching
value "9" does not store the plain overlay (in which the new document's id
key would win): the store forces the id back to "3". -/
theorem C2_counterexample :
    _upsert_node (PyVal.str "3") [("id", PyVal.str "9")]
        ⟨[(PyVal.str "3", [("id", PyVal.str "3")])], []⟩ =
      .ok ⟨[(PyVal.str "3", [("id", PyVal.str "3")])], []⟩ ∧
    Doc.merge [("id", PyVal.str "3")] [("id", PyVal.str "9")] =
      [("id", PyVal.str "9")] ∧
    find_node (PyVal.str "3")
        ⟨[(PyVal.str "3", [("id", PyVal.str "3")])], []⟩ ≠
      Doc.merge [("id", PyVal.str "3")] [("id", PyVal.str "9")] :=
  ⟨rfl, by decide, by decide⟩

/-- Claim C2 (amended): upsert behaves as insert when no node with the
identifier is stored; when a node with current document C is stored, the
upsert succeeds and stores the overlay of C by the new document with the id
key forced to the identifier — the id field maps to the identifier, on every
other key the new document's value wins on conflict and C's other keys are
retained, and the stored document is exactly the plain overlay whenever the
new document has no id entry and C's id entry is the identifier. -/
theorem C2_upsert_merge (st : DBState) (i : PyVal) (d C : Doc) :
    (st.nodes.any (fun r => r.1 = i) = false →
      _upsert_node i d st = _insert_node (some i) d st) ∧
    (find_node i st = C → C ≠ [] →
      ∃ st2, _upsert_node i d st = .ok st2 ∧
        find_node i st2 = Doc.set (Doc.merge C d) "id" i ∧
        Doc.get (find_node i st2) "id" = some i ∧
        ((d.map Prod.fst).Nodup → ∀ k, k ≠ "id" →
          Doc.get (find_node i st2) k =
            match Doc.get d k with
            | some v => some v
            | none => Doc.get C k) ∧
        ((C.map Prod.fst).Nodup → Doc.get C "id" = some i →
          Doc.get d "id" = none →
          find_node i st2 = Doc.merge C d)) := by
  constructor
  · intro hany
    unfold _upsert_node
    rw [find_node_of_not_any hany]
    rfl
  · intro hC hne
    have hsome : (st.nodes.find? (fun r => r.1 = i)).isSome := by
      apply find?_isSome_of_find_node_ne
      rw [hC]
      exact hne
    have hCempty : C.isEmpty = false := by
      rw [List.isEmpty_eq_false]
      exact hne
    have hup : _upsert_node i d st =
        .ok (updateNodeRow st (Doc.set (Doc.merge C d) "id" i) i) := by
      unfold _upsert_node
      rw [hC]
      dsimp only
      rw [hCempty]
      rfl
    have hfind : find_node i (updateNodeRow st
        (Doc.set (Doc.merge C d) "id" i) i) =
        Doc.set (Doc.merge C d) "id" i :=
      find_node_updateNodeRow _ hsome
    refine ⟨_, hup, hfind, ?_, ?_, ?_⟩
    · rw [hfind]
      exact Doc.get_set_self _ "id" i
    · intro hnd k hk
      rw [hfind, Doc.get_set_ne _ i (fun h => hk h.symm)]
      exact Doc.get_merge_nodup d C k hnd
    · intro hCnd hCid hdid
      rw [hfind]
      have hdabs : ∀ p ∈ d, p.1 ≠ "id" := (Doc.get_eq_none_iff d "id").1 hdid
      have hCval : ∀ q ∈ C, q.1 = "id" → q.2 = i :=
        Doc.entries_of_get_nodup hCnd hCid
      have hCany : C.any (fun p => p.1 = "id") = true :=
        (Doc.any_key_iff C "id").2 ⟨("id", i), Doc.get_mem hCid, rfl⟩
      obtain ⟨hval, hany⟩ := Doc.merge_keep d C hdabs hCval hCany
      exact Doc.set_eq_self hval hany

/-- Witness for C2: the Jobs example — upserting new_prop=value over the
stored document id=3, name=Jobs yields id=3, name=Jobs, new_prop=value. -/
theorem C2_upsert_merge_witness :
    (find_node (PyVal.str "3")
        ⟨[(PyVal.str "3",
          [("id", PyVal.str "3"), ("name", PyVal.str "Jobs")])], []⟩ =
      [("id", PyVal.str "3"), ("name", PyVal.str "Jobs")]) ∧
    ([("id", PyVal.str "3"), ("name", PyVal.str "Jobs")] : Doc) ≠ [] ∧
    (∃ st2, _upsert_node (PyVal.str "3") [("new_prop", PyVal.str "value")]
        ⟨[(PyVal.str "3",
          [("id", PyVal.str "3"), ("name", PyVal.str "Jobs")])], []⟩ =
        .ok st2 ∧
      find_node (PyVal.str "3") st2 =
        Doc.set (Doc.merge [("id", PyVal.str "3"), ("name", PyVal.str "Jobs")]
          [("new_prop", PyVal.str "value")]) "id" (PyVal.str "3")) ∧
    Doc.set (Doc.merge [("id", PyVal.str "3"), ("name", PyVal.str "Jobs")]
        [("new_prop", PyVal.str "value")]) "id" (PyVal.str "3") =
      [("id", PyVal.str "3"), ("name", PyVal.str "Jobs"),
        ("new_prop", PyVal.str "value")] := by
  refine ⟨rfl, by decide, ?_, by decide⟩
  obtain ⟨st2, h1, h2, _⟩ :=
    (C2_upsert_merge
      ⟨[(PyVal.str "3",
        [("id", PyVal.str "3"), ("name", PyVal.str "Jobs")])], []⟩
      (PyVal.str "3") [("new_prop", PyVal.str "value")]
      [("id", PyVal.str "3"), ("name", PyVal.str "Jobs")]).2
      rfl (by decide)
  exact ⟨st2, h1, h2⟩

/-- Claim C3: upsert is idempotent on identical content: after a successful
upsert of (identifier, document), repeating the same upsert succeeds and
leaves the stored document exactly as after the first call. -/
theorem C3_upsert_idempotent (st st1 : DBState) (i : PyVal) (d : Doc)
    (hnd : (d.map Prod.fst).Nodup)
    (h1 : upsert_node i d st = .ok st1) :
    ∃ st2, upsert_node i d st1 = .ok st2 ∧
      find_node i st2 = find_node i st1 := by
  unfold upsert_node at h1 ⊢
  by_cases hemp : (find_node i st).isEmpty = true
  · -- first call took the insert branch
    unfold _upsert_node at h1
    dsimp only at h1
    rw [if_pos hemp] at h1
    obtain ⟨j, hgetj, hjn, hanyf, hnodes, hedges⟩ := insertNodeRow_ok h1
    have hj : j = i := by
      have hg : Doc.get (_set_id (some i) d) "id" = some i :=
        Doc.get_set_self d "id" i
      rw [hg] at hgetj
      exact (Option.some.inj hgetj).symm
    subst hj
    have hfind1 : find_node j st1 = _set_id (some j) d :=
      find_node_insert hanyf hnodes
    have hS1ne : _set_id (some j) d ≠ [] :=
      Doc.get_some_ne_nil (Doc.get_set_self d "id" j)
    have hsome1 : (st1.nodes.find? (fun r => r.1 = j)).isSome := by
      apply find?_isSome_of_find_node_ne
      rw [hfind1]
      exact hS1ne
    have hS1empty : (_set_id (some j) d).isEmpty = false := by
      rw [List.isEmpty_eq_false]
      exact hS1ne
    have hup2 : _upsert_node j d st1 =
        .ok (updateNodeRow st1
          (Doc.set (Doc.merge (_set_id (some j) d) d) "id" j) j) := by
      unfold _upsert_node
      rw [hfind1]
      dsimp only
      rw [hS1empty]
      rfl
    have hyp : ∀ p ∈ d, p.1 ≠ "id" →
        (∀ q ∈ Doc.set d "id" j, q.1 = p.1 → q.2 = p.2) ∧
          (Doc.set d "id" j).any (fun r => r.1 = p.1) = true := by
      intro p hp hpne
      constructor
      · intro q hq hqk
        have hqid : q.1 ≠ "id" := by
          rw [hqk]
          exact hpne
        have hqd : q ∈ d := Doc.mem_set_ne hq hqid
        have hqp := Doc.nodup_entry_unique d hnd hp q hqd hqk
        rw [hqp]
      · rw [Doc.any_set_ne d j hpne]
        exact List.any_eq_true.2 ⟨p, hp, by simp⟩
    have hkey : Doc.set (Doc.merge (Doc.set d "id" j) d) "id" j =
        Doc.set d "id" j := by
      rw [Doc.merge_set_forced j d (Doc.set d "id" j) hyp, Doc.set_set_self]
    refine ⟨_, hup2, ?_⟩
    rw [find_node_updateNodeRow _ hsome1, hfind1]
    exact hkey
  · -- first call took the update branch
    unfold _upsert_node at h1
    dsimp only at h1
    rw [if_neg hemp] at h1
    have hCne : find_node i st ≠ [] := by
      intro hcon
      apply hemp
      rw [hcon]
      rfl
    have hsome : (st.nodes.find? (fun r => r.1 = i)).isSome :=
      find?_isSome_of_find_node_ne hCne
    cases h1
    have hfindB : find_node i (updateNodeRow st
        (_set_id (some i) (Doc.merge (find_node i st) d)) i) =
        Doc.set (Doc.merge (find_node i st) d) "id" i :=
      find_node_updateNodeRow _ hsome
    have hBne : Doc.set (Doc.merge (find_node i st) d) "id" i ≠ [] :=
      Doc.get_some_ne_nil (Doc.get_set_self _ "id" i)
    have hsome1 : ((updateNodeRow st
        (_set_id (some i) (Doc.merge (find_node i st) d)) i).nodes.find?
          (fun r => r.1 = i)).isSome := by
      apply find?_isSome_of_find_node_ne
      rw [hfindB]
      exact hBne
    have hBempty : (Doc.set (Doc.merge (find_node i st) d) "id" i).isEmpty
        = false := by
      rw [List.isEmpty_eq_false]
      exact hBne
    have hup2 : _upsert_node i d (updateNodeRow st
        (_set_id (some i) (Doc.merge (find_node i st) d)) i) =
        .ok (updateNodeRow (updateNodeRow st
          (_set_id (some i) (Doc.merge (find_node i st) d)) i)
          (Doc.set (Doc.merge
            (Doc.set (Doc.merge (find_node i st) d) "id" i) d) "id" i) i) := by
      unfold _upsert_node
      rw [hfindB]
      dsimp only
      rw [hBempty]
      rfl
    have hyp : ∀ p ∈ d, p.1 ≠ "id" →
        (∀ q ∈ Doc.set (Doc.merge (find_node i st) d) "id" i,
          q.1 = p.1 → q.2 = p.2) ∧
          (Doc.set (Doc.merge (find_node i st) d) "id" i).any
            (fun r => r.1 = p.1) = true := by
      intro p hp hpne
      obtain ⟨hval, hany⟩ :=
        Doc.merge_entry d (find_node i st) hp hnd
      constructor
      · intro q hq hqk
        have hqid : q.1 ≠ "id" := by
          rw [hqk]
          exact hpne
        exact hval q (Doc.mem_set_ne hq hqid) hqk
      · rw [Doc.any_set_ne _ i hpne]
        exact hany
    have hkey : Doc.set (Doc.merge
        (Doc.set (Doc.merge (find_node i st) d) "id" i) d) "id" i =
        Doc.set (Doc.merge (find_node i st) d) "id" i := by
      rw [Doc.merge_set_forced i d
        (Doc.set (Doc.merge (find_node i st) d) "id" i) hyp,
        Doc.set_set_self]
    refine ⟨_, hup2, ?_⟩
    rw [find_node_updateNodeRow _ hsome1, hfindB]
    exact hkey

/-- Witness for C3: upserting the Jobs update twice leaves the stored
document of node 3 unchanged after the second call. -/
theorem C3_upsert_idempotent_witness :
    ([("new_prop", PyVal.str "value")].map Prod.fst).Nodup ∧
    upsert_node (PyVal.str "3") [("new_prop", PyVal.str "value")]
        ⟨[(PyVal.str "3",
          [("id", PyVal.str "3"), ("name", PyVal.str "Jobs")])], []⟩ =
      .ok ⟨[(PyVal.str "3",
        [("id", PyVal.str "3"), ("name", PyVal.str "Jobs"),
          ("new_prop", PyVal.str "value")])], []⟩ ∧
    (∃ st2, upsert_node (PyVal.str "3") [("new_prop", PyVal.str "value")]
        ⟨[(PyVal.str "3",
          [("id", PyVal.str "3"), ("name", PyVal.str "Jobs"),
            ("new_prop", PyVal.str "value")])], []⟩ = .ok st2 ∧
      find_node (PyVal.str "3") st2 =
        find_node (PyVal.str "3")
          ⟨[(PyVal.str "3",
            [("id", PyVal.str "3"), ("name", PyVal.str "Jobs"),
              ("new_prop", PyVal.str "value")])], []⟩) := by
  refine ⟨by decide, rfl, ?_⟩
  exact C3_upsert_idempotent
    ⟨[(PyVal.str "3",
      [("id", PyVal.str "3"), ("name", PyVal.str "Jobs")])], []⟩
    ⟨[(PyVal.str "3",
      [("id", PyVal.str "3"), ("name", PyVal.str "Jobs"),
        ("new_prop", PyVal.str "value")])], []⟩
    (PyVal.str "3") [("new_prop", PyVal.str "value")] (by decide) rfl

/-- Counterexample to claim C6 as stated: with no target given the loop
still serializes the absent target to the string "null" and compares
identifiers against it, so a neighbor row yielding the identifier "null"
stops the walk before the row sequence is exhausted. -/
theorem C6_counterexample :
    traverse_ids [[PyVal.str "null"], [PyVal.str "x"]] Option.none =
      [PyVal.str "null"] ∧
    spec_exhaustive_path [[PyVal.str "null"], [PyVal.str "x"]] =
      [PyVal.str "null", PyVal.str "x"] ∧
    traverse_ids [[PyVal.str "null"], [PyVal.str "x"]] Option.none ≠
      spec_exhaustive_path [[PyVal.str "null"], [PyVal.str "x"]] :=
  ⟨by decide, by decide, by decide⟩

/-- Claim C6 (amended): in identifiers-only mode, over any row sequence,
the returned path has no duplicate identifiers; once an appended identifier
equals the serialized target the walk stops — the target can only be the
last path element and later rows do not change the path; and whenever no
row yields the serialized target the walk consumes the rows to exhaustion,
appending each unseen identifier in yielded order — in particular, with no
target given, whenever no row yields the string "null" (the serialization
of the absent target). -/
theorem C6_traverse_ids (rows : List (List PyVal)) (tgt : Option PyVal) :
    (traverse_ids rows tgt).Nodup ∧
    (∀ rows2, PyVal.str (pyJsonDumps tgt) ∈ traverse_ids rows tgt →
      traverse_ids (rows ++ rows2) tgt = traverse_ids rows tgt) ∧
    (PyVal.str (pyJsonDumps tgt) ∈ traverse_ids rows tgt →
      (traverse_ids rows tgt).getLast? =
        some (PyVal.str (pyJsonDumps tgt))) ∧
    ((∀ row ∈ rows, row.head? ≠ some (PyVal.str (pyJsonDumps tgt))) →
      traverse_ids rows tgt = spec_exhaustive_path rows) ∧
    (tgt = none → (∀ row ∈ rows, row.head? ≠ some (PyVal.str "null")) →
      traverse_ids rows tgt = spec_exhaustive_path rows) := by
  refine ⟨traverseIdsLoop_nodup _ rows [] List.nodup_nil,
    fun rows2 h => traverseIdsLoop_stop _ rows rows2 [] (by simp) h,
    fun h => traverseIdsLoop_last _ rows [] (by simp) h,
    fun h => traverseIdsLoop_exhaust _ rows [] h,
    ?_⟩
  intro htgt h
  subst htgt
  exact traverseIdsLoop_exhaust _ rows [] h

/-- Witness for C6: a four-row sequence containing the serialized target
yields a duplicate-free path ending at the target, and appending a further
row does not change the path. -/
theorem C6_traverse_ids_witness :
    (PyVal.str (pyJsonDumps (some (PyVal.str "3"))) ∈
      traverse_ids
        [[PyVal.int 2], [PyVal.int 1], [PyVal.str "\"3\""], [PyVal.int 4]]
        (some (PyVal.str "3"))) ∧
    traverse_ids
        ([[PyVal.int 2], [PyVal.int 1], [PyVal.str "\"3\""], [PyVal.int 4]] ++
          [[PyVal.int 9]]) (some (PyVal.str "3")) =
      traverse_ids
        [[PyVal.int 2], [PyVal.int 1], [PyVal.str "\"3\""], [PyVal.int 4]]
        (some (PyVal.str "3")) ∧
    (traverse_ids
        [[PyVal.int 2], [PyVal.int 1], [PyVal.str "\"3\""], [PyVal.int 4]]
        (some (PyVal.str "3"))).Nodup ∧
    (traverse_ids
        [[PyVal.int 2], [PyVal.int 1], [PyVal.str "\"3\""], [PyVal.int 4]]
        (some (PyVal.str "3"))).getLast? =
      some (PyVal.str (pyJsonDumps (some (PyVal.str "3")))) := by
  have h := C6_traverse_ids
    [[PyVal.int 2], [PyVal.int 1], [PyVal.str "\"3\""], [PyVal.int 4]]
    (some (PyVal.str "3"))
  have hmem : PyVal.str (pyJsonDumps (some (PyVal.str "3"))) ∈
      traverse_ids
        [[PyVal.int 2], [PyVal.int 1], [PyVal.str "\"3\""], [PyVal.int 4]]
        (some (PyVal.str "3")) := by decide
  exact ⟨hmem, h.2.1 [[PyVal.int 9]] hmem, h.1, h.2.2.1 hmem⟩

/-- Claim C7: in body-inclusion mode every yielded row is appended to the
path unconditionally with no deduplication, and the walk terminates exactly
at the first row whose identifier equals the serialized target and whose
marker is the node marker "()": the path is the row prefix through that
row, no earlier path row is such a stopping row, and the last path row is
either the target-node row itself (never a mere edge touching the target)
or the row sequence was consumed to exhaustion. -/
theorem C7_traverse_with_bodies (rows : List (PyVal × PyVal × PyVal))
    (tgt : Option PyVal) :
    traverse_with_bodies rows tgt =
      takeThrough (isStopRow (pyJsonDumps tgt)) rows ∧
    traverse_with_bodies rows tgt <+: rows ∧
    (∀ r ∈ (traverse_with_bodies rows tgt).dropLast,
      isStopRow (pyJsonDumps tgt) r = false) ∧
    (∀ r, (traverse_with_bodies rows tgt).getLast? = some r →
      (r.1 = PyVal.str (pyJsonDumps tgt) ∧ r.2.1 = PyVal.str "()") ∨
      traverse_with_bodies rows tgt = rows) := by
  have heq : traverse_with_bodies rows tgt =
      takeThrough (isStopRow (pyJsonDumps tgt)) rows := by
    show traverseBodiesLoop (pyJsonDumps tgt) rows [] = _
    rw [traverseBodiesLoop_eq]
    rfl
  refine ⟨heq, ?_, ?_, ?_⟩
  · rw [heq]
    exact takeThrough_prefix _ rows
  · rw [heq]
    exact takeThrough_dropLast _ rows
  · intro r hr
    rw [heq] at hr
    rcases takeThrough_last _ rows r hr with h | h
    · left
      unfold isStopRow at h
      simp only [Bool.and_eq_true, decide_eq_true_eq] at h
      exact h
    · right
      rw [heq, h]

/-- Witness for C7: a five-row sequence with duplicate edge rows touching
the target before the target-node row keeps the duplicates, passes the edge
rows, and stops exactly at the target-node row. -/
theorem C7_traverse_with_bodies_witness :
    traverse_with_bodies
        [(PyVal.int 2, PyVal.str "()", PyVal.str "b2"),
          (PyVal.str "\"3\"", PyVal.str "->", PyVal.str "p"),
          (PyVal.str "\"3\"", PyVal.str "->", PyVal.str "p"),
          (PyVal.str "\"3\"", PyVal.str "()", PyVal.str "b3"),
          (PyVal.int 9, PyVal.str "()", PyVal.str "b9")]
        (some (PyVal.str "3")) =
      takeThrough (isStopRow (pyJsonDumps (some (PyVal.str "3"))))
        [(PyVal.int 2, PyVal.str "()", PyVal.str "b2"),
          (PyVal.str "\"3\"", PyVal.str "->", PyVal.str "p"),
          (PyVal.str "\"3\"", PyVal.str "->", PyVal.str "p"),
          (PyVal.str "\"3\"", PyVal.str "()", PyVal.str "b3"),
          (PyVal.int 9, PyVal.str "()", PyVal.str "b9")] ∧
    traverse_with_bodies
        [(PyVal.int 2, PyVal.str "()", PyVal.str "b2"),
          (PyVal.str "\"3\"", PyVal.str "->", PyVal.str "p"),
          (PyVal.str "\"3\"", PyVal.str "->", PyVal.str "p"),
          (PyVal.str "\"3\"", PyVal.str "()", PyVal.str "b3"),
          (PyVal.int 9, PyVal.str "()", PyVal.str "b9")]
        (some (PyVal.str "3")) =
      [(PyVal.int 2, PyVal.str "()", PyVal.str "b2"),
        (PyVal.str "\"3\"", PyVal.str "->", PyVal.str "p"),
        (PyVal.str "\"3\"", PyVal.str "->", PyVal.str "p"),
        (PyVal.str "\"3\"", PyVal.str "()", PyVal.str "b3")] ∧
    ((((PyVal.str "\"3\"", PyVal.str "()", PyVal.str "b3") :
        PyVal × PyVal × PyVal).1 =
          PyVal.str (pyJsonDumps (some (PyVal.str "3"))) ∧
      ((PyVal.str "\"3\"", PyVal.str "()", PyVal.str "b3") :
        PyVal × PyVal × PyVal).2.1 = PyVal.str "()") ∨
      traverse_with_bodies
          [(PyVal.int 2, PyVal.str "()", PyVal.str "b2"),
            (PyVal.str "\"3\"", PyVal.str "->", PyVal.str "p"),
            (PyVal.str "\"3\"", PyVal.str "->", PyVal.str "p"),
            (PyVal.str "\"3\"", PyVal.str "()", PyVal.str "b3"),
            (PyVal.int 9, PyVal.str "()", PyVal.str "b9")]
          (some (PyVal.str "3")) =
        [(PyVal.int 2, PyVal.str "()", PyVal.str "b2"),
          (PyVal.str "\"3\"", PyVal.str "->", PyVal.str "p"),
          (PyVal.str "\"3\"", PyVal.str "->", PyVal.str "p"),
          (PyVal.str "\"3\"", PyVal.str "()", PyVal.str "b3"),
          (PyVal.int 9, PyVal.str "()", PyVal.str "b9")]) := by
  have h := C7_traverse_with_bodies
    [(PyVal.int 2, PyVal.str "()", PyVal.str "b2"),
      (PyVal.str "\"3\"", PyVal.str "->", PyVal.str "p"),
      (PyVal.str "\"3\"", PyVal.str "->", PyVal.str "p"),
      (PyVal.str "\"3\"", PyVal.str "()", PyVal.str "b3"),
      (PyVal.int 9, PyVal.str "()", PyVal.str "b9")]
    (some (PyVal.str "3"))
  refine ⟨h.1, by decide, ?_⟩
  have hlast := h.2.2.2 (PyVal.str "\"3\"", PyVal.str "()", PyVal.str "b3")
    (by decide)
  exact hlast

end PySimpleGraph
